import Mathlib

/-!
Verification of the MongoDB policy-storage adapter (`adapter.go`).

The development shallowly embeds the adapter's pure core:

* `CasbinRule` mirrors the Go struct `CasbinRule` (a ptype discriminator and
  six positional string fields `v0..v5`).
* `savePolicyLine` mirrors Go `savePolicyLine`: slot `vN` receives `rule[N]`
  when `len(rule) > N` and is left as the zero value `""` otherwise
  (`List.getD n ""` is exactly that conditional).
* `lineTokens` mirrors the token-scanning part of Go `loadPolicyLine`
  (the chain of `if line.VN != "" { append } else { goto LineEnd }`).
* `decodeRule` mirrors the decoding part of Go `loadPolicyLine`: the section
  is `key[:1]` (embedded as `String.take 1`), which in Go panics when the
  ptype is the empty string; the panic is modelled as `none`.
* The policy model `model[sec][key].Policy` is embedded as an association
  list of sections, each an association list from ptype to the list of rules
  (the only field of `Assertion` the adapter touches is `Policy`).
  Go map lookup/update are embedded as `findA`/`setA`; a lookup of an absent
  section yields a nil map and the subsequent `.Policy` dereference panics,
  modelled as `none`.
* `LoadPolicy` folds `loadPolicyLine` over the stored records in iteration
  order; `SavePolicy` drops the previous storage and replaces it with one
  record per rule of sections "p" and "g" (the success path of the
  underlying bulk insert).
* `dropTable` mirrors Go `dropTable`: the collection handle's presence and
  the database's drop outcome are inputs; a `nil` handle returns at once, an
  error other than "ns not found" panics (`none`).
* The mutation stubs return the storage unchanged with error
  "not implemented".
-/

structure CasbinRule where
  pType : String
  v0 : String
  v1 : String
  v2 : String
  v3 : String
  v4 : String
  v5 : String
deriving DecidableEq, Repr

/-- Go `savePolicyLine`: fill `v0..v5` from the rule positionally; a slot
whose index is past the end of the rule keeps the zero value `""`. -/
def savePolicyLine (ptype : String) (rule : List String) : CasbinRule :=
  { pType := ptype
    v0 := rule.getD 0 ""
    v1 := rule.getD 1 ""
    v2 := rule.getD 2 ""
    v3 := rule.getD 3 ""
    v4 := rule.getD 4 ""
    v5 := rule.getD 5 "" }

/-- The token scan of Go `loadPolicyLine`: walk `v0, v1, ..., v5` in order,
appending each non-empty field; the first empty field jumps to `LineEnd`. -/
def lineTokens (line : CasbinRule) : List String :=
  if line.v0 = "" then [] else line.v0 ::
    (if line.v1 = "" then [] else line.v1 ::
      (if line.v2 = "" then [] else line.v2 ::
        (if line.v3 = "" then [] else line.v3 ::
          (if line.v4 = "" then [] else line.v4 ::
            (if line.v5 = "" then [] else [line.v5])))))

/-- The codec face of Go `loadPolicyLine`: the section is `key[:1]` and the
tokens are the scan above.  On an empty ptype, `key[:1]` is a slice out of
range and Go panics, modelled as `none`. -/
def decodeRule (line : CasbinRule) : Option (String × String × List String) :=
  if line.pType = "" then none
  else some (line.pType.take 1, line.pType, lineTokens line)

/-- The model: per ptype, the `Policy` list of rules (the only `Assertion`
field the adapter reads or writes). -/
abbrev AssertionMap := List (String × List (List String))

/-- `model : map[string]AssertionMap` keyed by the one-character section. -/
abbrev Model := List (String × AssertionMap)

/-- Go map lookup on an association list (first binding wins). -/
def findA {α : Type} : List (String × α) → String → Option α
  | [], _ => none
  | (k, v) :: rest, key => if k = key then some v else findA rest key

/-- Go map update at a key already present: rebind it, keep the rest. -/
def setA {α : Type} (l : List (String × α)) (k : String) (v : α) : List (String × α) :=
  l.map (fun p => if p.1 = k then (k, v) else p)

/-- Go `loadPolicyLine(line, model)`: compute `sec := key[:1]` (panic on an
empty ptype, modelled `none`), then
`model[sec][key].Policy = append(model[sec][key].Policy, tokens)`; a missing
section or ptype makes the `.Policy` access a nil dereference (`none`). -/
def loadPolicyLine (line : CasbinRule) (m : Model) : Option Model :=
  if line.pType = "" then none
  else
    match findA m (line.pType.take 1) with
    | none => none
    | some am =>
      match findA am line.pType with
      | none => none
      | some pol =>
        some (setA m (line.pType.take 1)
          (setA am line.pType (pol ++ [lineTokens line])))

/-- Go `LoadPolicy`: iterate the stored records in storage order, loading
each line into the model. -/
def LoadPolicy (storage : List CasbinRule) (m : Model) : Option Model :=
  match storage with
  | [] => some m
  | line :: rest =>
    match loadPolicyLine line m with
    | none => none
    | some m2 => LoadPolicy rest m2

/-- One record per rule of one section, in iteration order
(`for ptype, ast := range model[sec] { for _, rule := range ast.Policy }`). -/
def secLines (am : AssertionMap) : List CasbinRule :=
  am.flatMap (fun pp => pp.2.map (fun rule => savePolicyLine pp.1 rule))

/-- The records Go `SavePolicy` inserts: all of section "p", then all of
section "g"; a section absent from the model ranges over the nil map. -/
def savedLines (m : Model) : List CasbinRule :=
  secLines ((findA m "p").getD []) ++ secLines ((findA m "g").getD [])

/-- Go `SavePolicy` on the storage state: drop the whole collection, then
bulk-insert the saved lines (the success path of drop and insert). -/
def SavePolicy (m : Model) (storage : List CasbinRule) : List CasbinRule :=
  savedLines m

/-- Go `dropTable`: a nil collection handle returns at once; otherwise the
database's drop outcome is `none` for success or `some msg` for an error,
and any error other than "ns not found" panics (modelled `none`). -/
def dropTable (hasCollection : Bool) (dropOutcome : Option String) : Option Unit :=
  if hasCollection = false then some ()
  else
    match dropOutcome with
    | none => some ()
    | some msg => if msg = "ns not found" then some () else none

/-- Go `AddPolicy`: storage untouched, error "not implemented". -/
def AddPolicy (storage : List CasbinRule) (sec ptype : String)
    (rule : List String) : List CasbinRule × Except String Unit :=
  (storage, Except.error "not implemented")

/-- Go `RemovePolicy`: storage untouched, error "not implemented". -/
def RemovePolicy (storage : List CasbinRule) (sec ptype : String)
    (rule : List String) : List CasbinRule × Except String Unit :=
  (storage, Except.error "not implemented")

/-- Go `RemoveFilteredPolicy`: storage untouched, error "not implemented". -/
def RemoveFilteredPolicy (storage : List CasbinRule) (sec ptype : String)
    (fieldIndex : Int) (fieldValues : List String) :
    List CasbinRule × Except String Unit :=
  (storage, Except.error "not implemented")

/-- The (ptype, rule) pairs of one section's assertion map, in order. -/
def pairsOfAm (am : AssertionMap) : List (String × List String) :=
  am.flatMap (fun pp => pp.2.map (fun rule => (pp.1, rule)))

/-- The multiset of (ptype, rule) pairs a model holds under one section. -/
def pairsOfSec (m : Model) (sec : String) : Multiset (String × List String) :=
  ↑(pairsOfAm ((findA m sec).getD []))

/-- The multiset of (ptype, rule) pairs of the "p" and "g" sections. -/
def storedPairs (m : Model) : Multiset (String × List String) :=
  pairsOfSec m "p" + pairsOfSec m "g"

/-- A fresh empty model with the same schema (sections and ptypes) as `m`:
every `Policy` list is empty. -/
def freshModel (m : Model) : Model :=
  m.map (fun sm => (sm.1, sm.2.map (fun pp => (pp.1, ([] : List (List String))))))

/-- Shared helper: on a rule of at most 6 fields, none empty, the token scan
of the encoded record recovers the rule exactly. -/
theorem lineTokens_savePolicyLine (pt : String) (r : List String)
    (hlen : r.length ≤ 6) (hne : ∀ f ∈ r, f ≠ "") :
    lineTokens (savePolicyLine pt r) = r := by
  rcases r with _ | ⟨a, _ | ⟨b, _ | ⟨c, _ | ⟨d, _ | ⟨e, _ | ⟨f, _ | ⟨g, t⟩⟩⟩⟩⟩⟩⟩
  · rfl
  all_goals simp_all [savePolicyLine, lineTokens]

/-- Claim C1 counterexample: at ptype = "" (with the empty field list, which
has at most 6 fields and no empty element), decoding the encoded record does
not yield the claimed triple: Go panics on the slice `key[:1]` of the empty
ptype, modelled as `none`. -/
theorem decode_encode_empty_ptype_cex :
    ([] : List String).length ≤ 6 ∧ (∀ f ∈ ([] : List String), f ≠ "") ∧
    decodeRule (savePolicyLine "" []) = none := by
  refine ⟨by decide, by simp, rfl⟩

/-- Claim C1 (amended: the ptype must be non-empty, since decoding a record
with an empty ptype panics): for every non-empty ptype and every field list
of length at most 6 with no empty element, decoding the encoded record
yields the first character of the ptype as section, the same ptype, and the
same ordered field list. -/
theorem decode_encode_roundtrip (pt : String) (fields : List String)
    (hpt : pt ≠ "") (hlen : fields.length ≤ 6) (hne : ∀ f ∈ fields, f ≠ "") :
    decodeRule (savePolicyLine pt fields) = some (pt.take 1, pt, fields) := by
  have ht := lineTokens_savePolicyLine pt fields hlen hne
  unfold decodeRule
  rw [show (savePolicyLine pt fields).pType = pt from rfl, if_neg hpt, ht]

/-- Witness for C1 at ptype "g2" and fields ["alice", "admin"]. -/
theorem decode_encode_roundtrip_witness :
    decodeRule (savePolicyLine "g2" ["alice", "admin"]) =
      some (("g2" : String).take 1, "g2", ["alice", "admin"]) :=
  decode_encode_roundtrip "g2" ["alice", "admin"] (by decide) (by decide)
    (by decide)

/-- Claim C2: the token scan walks `v0..v5` in order and stops at the first
empty field (it equals `takeWhile (nonempty)` of the six fields); in
particular the record with `v0 = "alice"`, `v1 = ""`, `v2 = "read"` decodes
to the one-element token list ["alice"]. -/
theorem lineTokens_stops_at_first_empty :
    (∀ line : CasbinRule, lineTokens line =
      [line.v0, line.v1, line.v2, line.v3, line.v4, line.v5].takeWhile
        (fun v => v != "")) ∧
    lineTokens ⟨"p", "alice", "", "read", "", "", ""⟩ = ["alice"] := by
  refine ⟨fun line => ?_, by rfl⟩
  unfold lineTokens
  split_ifs <;> simp_all [List.takeWhile_cons, bne_iff_ne]

/-- Claim C4 counterexample: decoding the stored record whose ptype is the
empty string does not complete: Go panics on `key[:1]`, modelled as `none`,
both in the codec view and in the full model-filing `loadPolicyLine`. -/
theorem decode_empty_ptype_cex :
    decodeRule ⟨"", "", "", "", "", "", ""⟩ = none ∧
    loadPolicyLine ⟨"", "", "", "", "", "", ""⟩ [] = none :=
  ⟨rfl, rfl⟩

/-- Claim C4 (amended: encoding is total, and decoding completes exactly for
records with a non-empty ptype — on an empty ptype it panics): encode
produces the record with the given ptype for every input, and decode
succeeds iff the record's ptype is non-empty. -/
theorem codec_totality :
    (∀ (pt : String) (rule : List String), (savePolicyLine pt rule).pType = pt) ∧
    (∀ line : CasbinRule, (decodeRule line).isSome = true ↔ line.pType ≠ "") := by
  refine ⟨fun pt rule => rfl, fun line => ?_⟩
  unfold decodeRule
  split_ifs <;> simp_all

/-- Claim C5 counterexample: a 7-field rule whose first field is empty
encodes fine, but decoding the result returns 0 fields, not exactly 6: the
token scan stops at the empty `v0`. -/
theorem decode_seven_field_cex :
    6 < (["", "x", "x", "x", "x", "x", "x"] : List String).length ∧
    (lineTokens (savePolicyLine "p" ["", "x", "x", "x", "x", "x", "x"])).length ≠ 6 := by
  decide

/-- Claim C5 (amended: only the decode half needs the first six fields
non-empty, since the token scan stops at the first empty field): every rule
of more than 6 fields encodes to the same record as its first 6 fields —
the rest are silently dropped — and when those six fields are all
non-empty, decoding the resulting record returns exactly 6 fields. -/
theorem encode_truncates_at_six (pt : String) (rule : List String)
    (hlen : 6 < rule.length) :
    savePolicyLine pt rule = savePolicyLine pt (rule.take 6) ∧
    ((∀ f ∈ rule.take 6, f ≠ "") →
      (lineTokens (savePolicyLine pt rule)).length = 6) := by
  rcases rule with _ | ⟨a, _ | ⟨b, _ | ⟨c, _ | ⟨d, _ | ⟨e, _ | ⟨f, t⟩⟩⟩⟩⟩⟩ <;>
    refine ⟨?_, fun hne => ?_⟩ <;> simp_all [savePolicyLine, lineTokens]

/-- Witness for C5 at the 7-field rule ["1", ..., "7"]. -/
theorem encode_truncates_at_six_witness :
    savePolicyLine "p" ["1", "2", "3", "4", "5", "6", "7"] =
      savePolicyLine "p" (["1", "2", "3", "4", "5", "6", "7"].take 6) ∧
    (lineTokens (savePolicyLine "p" ["1", "2", "3", "4", "5", "6", "7"])).length = 6 :=
  ⟨(encode_truncates_at_six "p" ["1", "2", "3", "4", "5", "6", "7"] (by decide)).1,
    (encode_truncates_at_six "p" ["1", "2", "3", "4", "5", "6", "7"] (by decide)).2
      (by decide)⟩

/-- Claim C6: whenever a record decodes, its section key is `ptype[:1]`, the
first character of the ptype, and the rule is filed under the ptype itself;
concretely ptype "p" files under section "p" and "g2" under "g". -/
theorem decoded_section_is_first_char :
    (∀ (line : CasbinRule) (s p : String) (t : List String),
      decodeRule line = some (s, p, t) → s = line.pType.take 1 ∧ p = line.pType) ∧
    decodeRule ⟨"p", "a", "", "", "", "", ""⟩ = some ("p", "p", ["a"]) ∧
    decodeRule ⟨"g2", "a", "b", "", "", "", ""⟩ = some ("g", "g2", ["a", "b"]) := by
  refine ⟨fun line s p t h => ?_, rfl, rfl⟩
  unfold decodeRule at h
  split_ifs at h
  simp only [Option.some.injEq, Prod.mk.injEq] at h
  obtain ⟨h1, h2, h3⟩ := h
  subst h2
  exact ⟨h1.symm, rfl⟩

/-- Witness for C6 at the record with ptype "g2". -/
theorem decoded_section_is_first_char_witness :
    "g" = (CasbinRule.mk "g2" "a" "b" "" "" "" "").pType.take 1 ∧
    "g2" = (CasbinRule.mk "g2" "a" "b" "" "" "" "").pType :=
  decoded_section_is_first_char.1 ⟨"g2", "a", "b", "", "", "", ""⟩ "g" "g2"
    ["a", "b"] rfl

/-- Claim C8: each mutation stub returns the "not implemented" error and
leaves the storage unchanged, for arbitrary arguments. -/
theorem mutation_stubs_unsupported :
    ∀ (st : List CasbinRule) (sec pt : String) (rule : List String)
      (fi : Int) (fv : List String),
      AddPolicy st sec pt rule = (st, Except.error "not implemented") ∧
      RemovePolicy st sec pt rule = (st, Except.error "not implemented") ∧
      RemoveFilteredPolicy st sec pt fi fv = (st, Except.error "not implemented") :=
  fun st sec pt rule fi fv => ⟨rfl, rfl, rfl⟩

/-- Claim C9: dropping when the collection does not exist (the database
reports "ns not found") succeeds, whether or not a handle is held; any other
drop error with a held handle is fatal (a panic, modelled `none`). -/
theorem dropTable_ns_not_found_ok :
    (∀ b : Bool, dropTable b (some "ns not found") = some ()) ∧
    (∀ msg : String, msg ≠ "ns not found" → dropTable true (some msg) = none) := by
  constructor
  · intro b
    cases b <;> rfl
  · intro msg h
    simp [dropTable, h]

/-- Witness for C9: "ns not found" succeeds, a concrete other error panics. -/
theorem dropTable_ns_not_found_ok_witness :
    dropTable true (some "ns not found") = some () ∧
    dropTable true (some "boom") = none :=
  ⟨dropTable_ns_not_found_ok.1 true,
    dropTable_ns_not_found_ok.2 "boom" (by decide)⟩

/-- Claim C10: whatever the stored record holds, the token list the loader
appends to the model has at most 6 elements and no empty-string element. -/
theorem lineTokens_invariant :
    ∀ line : CasbinRule,
      (lineTokens line).length ≤ 6 ∧ ∀ t ∈ lineTokens line, t ≠ "" := by
  intro line
  unfold lineTokens
  split_ifs <;> simp_all

/-- Updating an absent key leaves the association list unchanged. -/
theorem setA_not_mem {α : Type} (l : List (String × α)) (k : String) (v : α)
    (h : k ∉ l.map Prod.fst) : setA l k v = l := by
  induction l with
  | nil => rfl
  | cons p rest ih =>
    simp only [List.map_cons, List.mem_cons, not_or] at h
    show (if p.1 = k then (k, v) else p) :: setA rest k v = p :: rest
    rw [if_neg (fun hh => h.1 hh.symm), ih h.2]

/-- Updating a binding keeps the key list of the association list. -/
theorem setA_keys {α : Type} (l : List (String × α)) (k : String) (v : α) :
    (setA l k v).map Prod.fst = l.map Prod.fst := by
  unfold setA
  rw [List.map_map]
  apply List.map_congr_left
  intro p hp
  by_cases h : p.1 = k <;> simp [h]

/-- Looking up the updated key finds the new value (when it was bound). -/
theorem findA_setA_same {α : Type} (l : List (String × α)) (k : String) (v w : α)
    (h : findA l k = some w) : findA (setA l k v) k = some v := by
  induction l with
  | nil => simp [findA] at h
  | cons p rest ih =>
    obtain ⟨a, b⟩ := p
    by_cases hp : a = k
    · have hs : setA ((a, b) :: rest) k v = (k, v) :: setA rest k v := by
        show (if a = k then (k, v) else (a, b)) :: setA rest k v = _
        rw [if_pos hp]
      rw [hs]
      show (if k = k then some v else findA (setA rest k v) k) = some v
      rw [if_pos rfl]
    · have hs : setA ((a, b) :: rest) k v = (a, b) :: setA rest k v := by
        show (if a = k then (k, v) else (a, b)) :: setA rest k v = _
        rw [if_neg hp]
      rw [hs]
      show (if a = k then some b else findA (setA rest k v) k) = some v
      rw [if_neg hp]
      apply ih
      have hh : findA ((a, b) :: rest) k = findA rest k := by
        show (if a = k then some b else findA rest k) = findA rest k
        rw [if_neg hp]
      exact hh ▸ h

/-- Looking up a different key is unaffected by the update. -/
theorem findA_setA_ne {α : Type} (l : List (String × α)) (k k2 : String) (v : α)
    (h : k2 ≠ k) : findA (setA l k v) k2 = findA l k2 := by
  induction l with
  | nil => rfl
  | cons p rest ih =>
    obtain ⟨a, b⟩ := p
    by_cases hp : a = k
    · have hs : setA ((a, b) :: rest) k v = (k, v) :: setA rest k v := by
        show (if a = k then (k, v) else (a, b)) :: setA rest k v = _
        rw [if_pos hp]
      rw [hs]
      show (if k = k2 then some v else findA (setA rest k v) k2) =
        (if a = k2 then some b else findA rest k2)
      rw [if_neg (fun hh => h hh.symm),
        if_neg (fun hh : a = k2 => h (hp.symm.trans hh).symm)]
      exact ih
    · have hs : setA ((a, b) :: rest) k v = (a, b) :: setA rest k v := by
        show (if a = k then (k, v) else (a, b)) :: setA rest k v = _
        rw [if_neg hp]
      rw [hs]
      show (if a = k2 then some b else findA (setA rest k v) k2) =
        (if a = k2 then some b else findA rest k2)
      by_cases h2 : a = k2
      · rw [if_pos h2, if_pos h2]
      · rw [if_neg h2, if_neg h2]
        exact ih

/-- A key of the association list has a bound value. -/
theorem findA_isSome_of_mem {α : Type} (l : List (String × α)) (k : String)
    (h : k ∈ l.map Prod.fst) : ∃ v, findA l k = some v := by
  induction l with
  | nil => simp at h
  | cons p rest ih =>
    obtain ⟨a, b⟩ := p
    by_cases hp : a = k
    · exact ⟨b, by simp [findA, hp]⟩
    · simp only [List.map_cons, List.mem_cons] at h
      rcases h with h | h
      · exact absurd h.symm hp
      · obtain ⟨v, hv⟩ := ih h
        exact ⟨v, by simp [findA, hp, hv]⟩

/-- The lines of one section are exactly one encoded record per
(ptype, rule) pair of that section. -/
theorem secLines_eq_map_pairs (am : AssertionMap) :
    secLines am = (pairsOfAm am).map (fun pr => savePolicyLine pr.1 pr.2) := by
  simp [secLines, pairsOfAm, List.map_flatMap, List.map_map, Function.comp_def]

/-- Claim C7: SavePolicy replaces the whole storage — the result does not
depend on the previous storage — with exactly one record per (ptype, rule)
pair of section "p" then section "g", and depends on no other section of
the model. -/
theorem SavePolicy_records :
    (∀ (m : Model) (s : List CasbinRule),
      SavePolicy m s =
        (pairsOfAm ((findA m "p").getD []) ++ pairsOfAm ((findA m "g").getD [])).map
          (fun pr => savePolicyLine pr.1 pr.2)) ∧
    (∀ (m1 m2 : Model) (s1 s2 : List CasbinRule),
      findA m1 "p" = findA m2 "p" → findA m1 "g" = findA m2 "g" →
      SavePolicy m1 s1 = SavePolicy m2 s2) := by
  constructor
  · intro m s
    simp [SavePolicy, savedLines, secLines_eq_map_pairs]
  · intro m1 m2 s1 s2 hP hG
    simp [SavePolicy, savedLines, hP, hG]

/-- Witness for C7: a model with an extra section "x" and non-empty prior
storage saves to the same records as the model without them. -/
theorem SavePolicy_records_witness :
    SavePolicy [("p", [("p", [[("a" : String)]])]), ("x", [("x", [["z"]])])]
        [CasbinRule.mk "q" "" "" "" "" "" ""] =
      SavePolicy [("p", [("p", [[("a" : String)]])])] [] :=
  SavePolicy_records.2 [("p", [("p", [["a"]])]), ("x", [("x", [["z"]])])]
    [("p", [("p", [["a"]])])] [CasbinRule.mk "q" "" "" "" "" "" ""] [] rfl rfl

/-- Lookup in the emptied model: same sections, policies emptied. -/
theorem findA_freshModel (m : Model) (s : String) :
    findA (freshModel m) s =
      (findA m s).map (fun am => am.map (fun pp => (pp.1, ([] : List (List String))))) := by
  induction m with
  | nil => rfl
  | cons p rest ih =>
    obtain ⟨a, am⟩ := p
    show (if a = s then some (am.map (fun pp => (pp.1, ([] : List (List String)))))
        else findA (freshModel rest) s) =
      (if a = s then some am else findA rest s).map
        (fun am2 => am2.map (fun pp => (pp.1, ([] : List (List String)))))
    by_cases hp : a = s
    · rw [if_pos hp, if_pos hp]
      rfl
    · rw [if_neg hp, if_neg hp]
      exact ih

/-- An assertion map with all policies emptied carries no pairs. -/
theorem pairsOfAm_emptied (am : AssertionMap) :
    pairsOfAm (am.map (fun pp => (pp.1, ([] : List (List String))))) = [] := by
  induction am with
  | nil => rfl
  | cons p rest ih => simp [pairsOfAm] at ih ⊢

/-- Emptying policies keeps the ptype keys. -/
theorem emptied_keys (am : AssertionMap) :
    (am.map (fun pp => (pp.1, ([] : List (List String))))).map Prod.fst =
      am.map Prod.fst := by
  rw [List.map_map]
  rfl

/-- The fresh empty model holds no (ptype, rule) pairs. -/
theorem storedPairs_freshModel (m : Model) : storedPairs (freshModel m) = 0 := by
  have hsec : ∀ s : String, pairsOfSec (freshModel m) s = 0 := by
    intro s
    unfold pairsOfSec
    rw [findA_freshModel]
    cases h : findA m s <;> simp [pairsOfAm, pairsOfAm_emptied]
  simp [storedPairs, hsec]

/-- Appending a rule to one ptype's policy adds exactly that pair to the
section's pair multiset (ptype keys assumed distinct, as in a Go map). -/
theorem pairsOfAm_setA (am : AssertionMap) (pt : String)
    (pol : List (List String)) (r : List String)
    (hnd : (am.map Prod.fst).Nodup) (h : findA am pt = some pol) :
    (↑(pairsOfAm (setA am pt (pol ++ [r]))) : Multiset (String × List String)) =
      (pt, r) ::ₘ ↑(pairsOfAm am) := by
  induction am with
  | nil => simp [findA] at h
  | cons p rest ih =>
    obtain ⟨a, apol⟩ := p
    simp only [List.map_cons, List.nodup_cons] at hnd
    by_cases hp : a = pt
    · subst hp
      have hfa : findA ((a, apol) :: rest) a = some apol := by
        show (if a = a then some apol else findA rest a) = some apol
        rw [if_pos rfl]
      rw [hfa] at h
      injection h with h2
      subst h2
      have hs : setA ((a, apol) :: rest) a (apol ++ [r]) =
          (a, apol ++ [r]) :: rest := by
        show (if a = a then (a, apol ++ [r]) else (a, apol)) ::
          setA rest a (apol ++ [r]) = _
        rw [if_pos rfl, setA_not_mem rest a (apol ++ [r]) hnd.1]
      rw [hs]
      show (↑((apol ++ [r]).map (fun rule => (a, rule)) ++ pairsOfAm rest) :
          Multiset (String × List String)) =
        (a, r) ::ₘ ↑(apol.map (fun rule => (a, rule)) ++ pairsOfAm rest)
      simp only [List.map_append, List.map_cons, List.map_nil, ← Multiset.coe_add,
        Multiset.coe_singleton, ← Multiset.singleton_add]
      abel
    · have hr : findA rest pt = some pol := by
        have hfa : findA ((a, apol) :: rest) pt = findA rest pt := by
          show (if a = pt then some apol else findA rest pt) = findA rest pt
          rw [if_neg hp]
        rw [hfa] at h
        exact h
      have hs : setA ((a, apol) :: rest) pt (pol ++ [r]) =
          (a, apol) :: setA rest pt (pol ++ [r]) := by
        show (if a = pt then (pt, pol ++ [r]) else (a, apol)) ::
          setA rest pt (pol ++ [r]) = _
        rw [if_neg hp]
      rw [hs]
      show (↑(apol.map (fun rule => (a, rule)) ++ pairsOfAm (setA rest pt (pol ++ [r]))) :
          Multiset (String × List String)) =
        (pt, r) ::ₘ ↑(apol.map (fun rule => (a, rule)) ++ pairsOfAm rest)
      simp only [← Multiset.coe_add]
      rw [ih hnd.2 hr]
      simp only [← Multiset.singleton_add]
      abel

/-- Inversion of a successful `loadPolicyLine`: the ptype is non-empty, its
section and ptype are bound in the model, and the result appends the token
list to that ptype's policy. -/
theorem loadPolicyLine_inv (line : CasbinRule) (m m2 : Model)
    (h : loadPolicyLine line m = some m2) :
    line.pType ≠ "" ∧
    ∃ am pol, findA m (line.pType.take 1) = some am ∧
      findA am line.pType = some pol ∧
      m2 = setA m (line.pType.take 1)
        (setA am line.pType (pol ++ [lineTokens line])) := by
  by_cases hpt : line.pType = ""
  · rw [loadPolicyLine.eq_def, if_pos hpt] at h
    simp at h
  · rw [loadPolicyLine.eq_def, if_neg hpt] at h
    split at h
    · simp at h
    · rename_i am ham
      split at h
      · simp at h
      · rename_i pol hpol
        simp only [Option.some.injEq] at h
        exact ⟨hpt, am, pol, ham, hpol, h.symm⟩

/-- A line whose section and ptype are bound loads successfully, appending
its token list. -/
theorem loadPolicyLine_some (line : CasbinRule) (m : Model) (am : AssertionMap)
    (pol : List (List String)) (hpt : line.pType ≠ "")
    (ham : findA m (line.pType.take 1) = some am)
    (hpol : findA am line.pType = some pol) :
    loadPolicyLine line m =
      some (setA m (line.pType.take 1)
        (setA am line.pType (pol ++ [lineTokens line]))) := by
  rw [loadPolicyLine.eq_def, if_neg hpt, ham]
  simp [hpol]

/-- Loading one line whose section is "p" or "g" adds exactly its
(ptype, tokens) pair to the model's stored-pair multiset. -/
theorem loadPolicyLine_storedPairs (line : CasbinRule) (m m2 : Model)
    (hsec : line.pType.take 1 = "p" ∨ line.pType.take 1 = "g")
    (hnd : ∀ am, findA m (line.pType.take 1) = some am →
      (am.map Prod.fst).Nodup)
    (h : loadPolicyLine line m = some m2) :
    storedPairs m2 = (line.pType, lineTokens line) ::ₘ storedPairs m := by
  obtain ⟨hpt, am, pol, ham, hpol, hm2⟩ := loadPolicyLine_inv line m m2 h
  have hpairs : pairsOfSec m2 (line.pType.take 1) =
      (line.pType, lineTokens line) ::ₘ pairsOfSec m (line.pType.take 1) := by
    unfold pairsOfSec
    rw [hm2, findA_setA_same _ _ _ _ ham, ham]
    simp only [Option.getD_some]
    exact pairsOfAm_setA am line.pType pol (lineTokens line) (hnd am ham) hpol
  have hother : ∀ s2, s2 ≠ line.pType.take 1 →
      pairsOfSec m2 s2 = pairsOfSec m s2 := by
    intro s2 hs2
    unfold pairsOfSec
    rw [hm2, findA_setA_ne _ _ _ _ hs2]
  rcases hsec with hs | hs
  · have hg : ("g" : String) ≠ line.pType.take 1 := by
      rw [hs]
      decide
    show pairsOfSec m2 "p" + pairsOfSec m2 "g" =
      (line.pType, lineTokens line) ::ₘ (pairsOfSec m "p" + pairsOfSec m "g")
    rw [hs] at hpairs
    rw [hpairs, hother "g" hg, Multiset.cons_add]
  · have hp2 : ("p" : String) ≠ line.pType.take 1 := by
      rw [hs]
      decide
    show pairsOfSec m2 "p" + pairsOfSec m2 "g" =
      (line.pType, lineTokens line) ::ₘ (pairsOfSec m "p" + pairsOfSec m "g")
    rw [hs] at hpairs
    rw [hpairs, hother "p" hp2, Multiset.add_cons]

/-- Folding the loader over a list of well-addressed lines succeeds and adds
exactly the decoded (ptype, tokens) pairs to the stored-pair multiset. -/
theorem LoadPolicy_storedPairs (lines : List CasbinRule) :
    ∀ m : Model,
    (∀ l ∈ lines, l.pType ≠ "" ∧
      (l.pType.take 1 = "p" ∨ l.pType.take 1 = "g") ∧
      ∃ am, findA m (l.pType.take 1) = some am ∧ l.pType ∈ am.map Prod.fst) →
    (∀ (s : String) (am : AssertionMap), (s = "p" ∨ s = "g") →
      findA m s = some am → (am.map Prod.fst).Nodup) →
    ∃ m2, LoadPolicy lines m = some m2 ∧
      storedPairs m2 = storedPairs m +
        ↑(lines.map (fun l => (l.pType, lineTokens l))) := by
  induction lines with
  | nil =>
    intro m _ _
    exact ⟨m, rfl, by simp⟩
  | cons l rest ih =>
    intro m hgood hnd
    obtain ⟨hpt, hsec, am, ham, hmem⟩ := hgood l (List.mem_cons_self l rest)
    obtain ⟨pol, hpol⟩ := findA_isSome_of_mem am l.pType hmem
    have hload := loadPolicyLine_some l m am pol hpt ham hpol
    have hkeys : ∀ s2 : String,
        (findA (setA m (l.pType.take 1)
          (setA am l.pType (pol ++ [lineTokens l]))) s2).map
            (fun a2 => a2.map Prod.fst) =
        (findA m s2).map (fun a2 => a2.map Prod.fst) := by
      intro s2
      by_cases hs2 : s2 = l.pType.take 1
      · subst hs2
        rw [findA_setA_same _ _ _ _ ham, ham]
        simp [setA_keys]
      · rw [findA_setA_ne _ _ _ _ hs2]
    have hgood1 : ∀ l2 ∈ rest, l2.pType ≠ "" ∧
        (l2.pType.take 1 = "p" ∨ l2.pType.take 1 = "g") ∧
        ∃ am2, findA (setA m (l.pType.take 1)
            (setA am l.pType (pol ++ [lineTokens l]))) (l2.pType.take 1) =
          some am2 ∧ l2.pType ∈ am2.map Prod.fst := by
      intro l2 hl2
      obtain ⟨h1, h2, am2, ham2, hmem2⟩ := hgood l2 (List.mem_cons_of_mem l hl2)
      refine ⟨h1, h2, ?_⟩
      have hk := hkeys (l2.pType.take 1)
      rw [ham2] at hk
      cases hf : findA (setA m (l.pType.take 1)
          (setA am l.pType (pol ++ [lineTokens l]))) (l2.pType.take 1) with
      | none => rw [hf] at hk; simp at hk
      | some am3 =>
        rw [hf] at hk
        simp at hk
        exact ⟨am3, rfl, by rw [hk]; exact hmem2⟩
    have hnd1 : ∀ (s : String) (am2 : AssertionMap), (s = "p" ∨ s = "g") →
        findA (setA m (l.pType.take 1)
          (setA am l.pType (pol ++ [lineTokens l]))) s = some am2 →
        (am2.map Prod.fst).Nodup := by
      intro s am2 hs hf
      have hk := hkeys s
      rw [hf] at hk
      cases hf0 : findA m s with
      | none => rw [hf0] at hk; simp at hk
      | some am0 =>
        rw [hf0] at hk
        simp at hk
        rw [hk]
        exact hnd s am0 hs hf0
    obtain ⟨m2, hL, hP⟩ := ih (setA m (l.pType.take 1)
      (setA am l.pType (pol ++ [lineTokens l]))) hgood1 hnd1
    refine ⟨m2, ?_, ?_⟩
    · show LoadPolicy (l :: rest) m = some m2
      have hcons : LoadPolicy (l :: rest) m =
          match loadPolicyLine l m with
          | none => none
          | some m3 => LoadPolicy rest m3 := rfl
      rw [hcons, hload]
      exact hL
    · have hstep := loadPolicyLine_storedPairs l m
        (setA m (l.pType.take 1) (setA am l.pType (pol ++ [lineTokens l])))
        hsec (fun a2 ha2 => hnd _ a2 hsec ha2) hload
      rw [hP, hstep]
      simp only [List.map_cons, ← Multiset.cons_coe, Multiset.cons_add,
        Multiset.add_cons]

/-- A member of a section's saved lines is the encoding of one of its
(ptype, rule) pairs. -/
theorem mem_secLines {l : CasbinRule} {am : AssertionMap} (h : l ∈ secLines am) :
    ∃ pp, pp ∈ am ∧ ∃ r, r ∈ pp.2 ∧ l = savePolicyLine pp.1 r := by
  simp only [secLines, List.mem_flatMap, List.mem_map] at h
  obtain ⟨pp, hpp, r, hr, hl⟩ := h
  exact ⟨pp, hpp, r, hr, hl.symm⟩

/-- An option whose default-[] unpacking has a member is `some` of it. -/
theorem option_eq_some_getD {α : Type} (o : Option (List α)) (x : α)
    (h : x ∈ o.getD []) : o = some (o.getD []) := by
  cases o with
  | none => simp at h
  | some l => rfl

/-- Decoding the saved lines of one section recovers its pairs, when every
rule has at most 6 fields, none empty. -/
theorem secLines_decode (am : AssertionMap)
    (h : ∀ pp ∈ am, ∀ r ∈ pp.2, r.length ≤ 6 ∧ ∀ f ∈ r, f ≠ "") :
    (secLines am).map (fun l => (l.pType, lineTokens l)) = pairsOfAm am := by
  induction am with
  | nil => rfl
  | cons pp rest ih =>
    show ((pp.2.map (fun rule => savePolicyLine pp.1 rule)) ++ secLines rest).map
        (fun l => (l.pType, lineTokens l)) =
      (pp.2.map (fun rule => (pp.1, rule))) ++ pairsOfAm rest
    rw [List.map_append, List.map_map,
      ih (fun pp2 hpp2 => h pp2 (List.mem_cons_of_mem pp hpp2))]
    congr 1
    apply List.map_congr_left
    intro r hr
    obtain ⟨hlen, hne⟩ := h pp (List.mem_cons_self pp rest) r hr
    show ((savePolicyLine pp.1 r).pType, lineTokens (savePolicyLine pp.1 r)) =
      (pp.1, r)
    rw [lineTokens_savePolicyLine pp.1 r hlen hne]
    rfl

/-- Claim C3 (amended: every rule must additionally have at most 6 fields —
fields beyond index 5 are dropped by the encoder — and no empty-string
field in any position, trailing included; the model's well-formedness as a
Go-map-backed casbin model is made explicit: section keys are the first
characters of their non-empty ptypes, and ptype keys within a section are
distinct): saving a model and loading into the fresh empty model of the
same schema reproduces the multiset of (ptype, fields) pairs of the "p"
and "g" sections. -/
theorem SavePolicy_LoadPolicy_roundtrip (m : Model) (s : List CasbinRule)
    (hp : ∀ pp ∈ (findA m "p").getD [], pp.1 ≠ "" ∧ pp.1.take 1 = "p")
    (hg : ∀ pp ∈ (findA m "g").getD [], pp.1 ≠ "" ∧ pp.1.take 1 = "g")
    (hrules : ∀ pp ∈ ((findA m "p").getD [] ++ (findA m "g").getD [] : AssertionMap),
      ∀ r ∈ pp.2, r.length ≤ 6 ∧ ∀ f ∈ r, f ≠ "")
    (hndp : (((findA m "p").getD ([] : AssertionMap)).map Prod.fst).Nodup)
    (hndg : (((findA m "g").getD ([] : AssertionMap)).map Prod.fst).Nodup) :
    ∃ m2, LoadPolicy (SavePolicy m s) (freshModel m) = some m2 ∧
      storedPairs m2 = storedPairs m := by
  have hgood : ∀ l ∈ savedLines m, l.pType ≠ "" ∧
      (l.pType.take 1 = "p" ∨ l.pType.take 1 = "g") ∧
      ∃ am, findA (freshModel m) (l.pType.take 1) = some am ∧
        l.pType ∈ am.map Prod.fst := by
    intro l hl
    rcases List.mem_append.mp hl with hl | hl
    · obtain ⟨pp, hpp, r, hr, hleq⟩ := mem_secLines hl
      obtain ⟨hne, htake⟩ := hp pp hpp
      have hlp : l.pType = pp.1 := by rw [hleq]; rfl
      refine ⟨by rw [hlp]; exact hne, Or.inl (by rw [hlp]; exact htake), ?_⟩
      refine ⟨((findA m "p").getD []).map
        (fun q => (q.1, ([] : List (List String)))), ?_, ?_⟩
      · rw [hlp, htake, findA_freshModel,
          option_eq_some_getD (findA m "p") pp hpp]
        rfl
      · rw [emptied_keys, hlp]
        exact List.mem_map.mpr ⟨pp, hpp, rfl⟩
    · obtain ⟨pp, hpp, r, hr, hleq⟩ := mem_secLines hl
      obtain ⟨hne, htake⟩ := hg pp hpp
      have hlp : l.pType = pp.1 := by rw [hleq]; rfl
      refine ⟨by rw [hlp]; exact hne, Or.inr (by rw [hlp]; exact htake), ?_⟩
      refine ⟨((findA m "g").getD []).map
        (fun q => (q.1, ([] : List (List String)))), ?_, ?_⟩
      · rw [hlp, htake, findA_freshModel,
          option_eq_some_getD (findA m "g") pp hpp]
        rfl
      · rw [emptied_keys, hlp]
        exact List.mem_map.mpr ⟨pp, hpp, rfl⟩
  have hndf : ∀ (s2 : String) (am : AssertionMap), (s2 = "p" ∨ s2 = "g") →
      findA (freshModel m) s2 = some am → (am.map Prod.fst).Nodup := by
    intro s2 am hs2 hf
    rw [findA_freshModel] at hf
    rcases hs2 with rfl | rfl
    · cases hf0 : findA m "p" with
      | none => rw [hf0] at hf; simp at hf
      | some am0 =>
        rw [hf0] at hf
        simp at hf
        rw [← hf, emptied_keys]
        have h0 : ((findA m "p").getD ([] : AssertionMap)) = am0 := by
          rw [hf0]
          rfl
        rw [h0] at hndp
        exact hndp
    · cases hf0 : findA m "g" with
      | none => rw [hf0] at hf; simp at hf
      | some am0 =>
        rw [hf0] at hf
        simp at hf
        rw [← hf, emptied_keys]
        have h0 : ((findA m "g").getD ([] : AssertionMap)) = am0 := by
          rw [hf0]
          rfl
        rw [h0] at hndg
        exact hndg
  obtain ⟨m2, hL, hP⟩ :=
    LoadPolicy_storedPairs (savedLines m) (freshModel m) hgood hndf
  refine ⟨m2, hL, ?_⟩
  rw [hP, storedPairs_freshModel, zero_add]
  show (↑((secLines ((findA m "p").getD []) ++
      secLines ((findA m "g").getD [])).map
        (fun l => (l.pType, lineTokens l))) : Multiset (String × List String)) =
    storedPairs m
  rw [List.map_append,
    secLines_decode _ (fun pp hpp => hrules pp (List.mem_append_left _ hpp)),
    secLines_decode _ (fun pp hpp => hrules pp (List.mem_append_right _ hpp)),
    ← Multiset.coe_add]
  rfl

/-- Witness for C3 at the two-section model
p = [["alice", "data1", "read"]], g = [["alice", "admin"]]. -/
theorem SavePolicy_LoadPolicy_roundtrip_witness :
    ∃ m2, LoadPolicy
        (SavePolicy [("p", [("p", [["alice", "data1", "read"]])]),
          ("g", [("g", [["alice", "admin"]])])] [])
        (freshModel [("p", [("p", [["alice", "data1", "read"]])]),
          ("g", [("g", [["alice", "admin"]])])]) = some m2 ∧
      storedPairs m2 =
        storedPairs [("p", [("p", [["alice", "data1", "read"]])]),
          ("g", [("g", [["alice", "admin"]])])] :=
  SavePolicy_LoadPolicy_roundtrip
    [("p", [("p", [["alice", "data1", "read"]])]),
      ("g", [("g", [["alice", "admin"]])])] []
    (by decide) (by decide) (by decide) (by decide) (by decide)

/-- Claim C3 counterexample: a model whose only rule has 7 non-empty fields
satisfies the claim's premise (it has no empty-string field at all), yet
save-then-load yields a different multiset — the seventh field is dropped
by the encoder.  A rule with a trailing (non-internal) empty field,
["a", ""], is likewise not reproduced: its encoding decodes to ["a"]. -/
theorem SavePolicy_LoadPolicy_cex :
    (∀ r ∈ [["a", "b", "c", "d", "e", "f", "g"]], ∀ f ∈ r, f ≠ "") ∧
    LoadPolicy
        (SavePolicy [("p", [("p", [["a", "b", "c", "d", "e", "f", "g"]])])] [])
        (freshModel [("p", [("p", [["a", "b", "c", "d", "e", "f", "g"]])])]) =
      some [("p", [("p", [["a", "b", "c", "d", "e", "f"]])])] ∧
    storedPairs [("p", [("p", [["a", "b", "c", "d", "e", "f"]])])] ≠
      storedPairs [("p", [("p", [["a", "b", "c", "d", "e", "f", "g"]])])] ∧
    LoadPolicy (SavePolicy [("p", [("p", [["a", ""]])])] [])
        (freshModel [("p", [("p", [["a", ""]])])]) =
      some [("p", [("p", [["a"]])])] ∧
    storedPairs [("p", [("p", [["a"]])])] ≠
      storedPairs [("p", [("p", [["a", ""]])])] := by
  refine ⟨by decide, rfl, by decide, rfl, by decide⟩
